import Mathlib

/-!
# Verification of the Pulse document embedding / indexing / retrieval subsystem

Shallow embedding of the storage core of the Pulse repository:

* `src/lib/vectorUtils.ts` — embedding generation, sentence chunking, the
  Pinecone storage orchestrator (`storeDocument`, `searchDocuments`,
  `getUserDocuments`, `clearUserDocuments`, `clearAllStoredDocuments`);
* `src/lib/localStorage.ts` — the local fallback store
  (`searchDocumentsLocal`, `clearAllDocuments`, …);
* `src/lib/pinecone.ts` — index bootstrap (modelled through success oracles);
* `src/hooks/useChat.ts` and `src/components/DocumentManager.tsx` — the
  local-search fallback reshaping and the document-listing flow;
* `src/utils/fileProcessor.ts` — the upload path that guards storage behind
  a 50-character minimum of cleaned content.

Modelling conventions:

* JS strings are Lean `String`s processed as `List Char`; `String.length`
  counts code points where JS counts UTF-16 units (identical on the BMP
  inputs this application handles).
* JS regular-expression operations used by the source are implemented
  directly as character-list scans with the exact semantics of the concrete
  patterns that appear in the code.
* JS numbers are modelled generically through a `NumOps` operation record so
  that theorems can be read both in the float model with NaN (`Option ℚ`,
  `none` = NaN, exact rational arithmetic otherwise) and in idealized exact
  real arithmetic (`ℝ`).
* Network effects (Pinecone) are modelled with explicit success oracles and
  effect traces; thrown JS exceptions become `Except` values.
-/

deriving instance DecidableEq for Except

namespace Pulse

/-- ASCII subset of the JS `\s` regex class (the strings handled by the
application are ASCII; exotic Unicode whitespace is not modelled). -/
def isWs (c : Char) : Bool :=
  c = ' ' || c = '\t' || c = '\n' || c = '\r' || c = '\x0b' || c = '\x0c'

/-- The sentence-terminator class `[.!?]` used by `chunkText` and by the
sentence counter in `generateEmbedding`. -/
def isTerm (c : Char) : Bool :=
  c = '.' || c = '!' || c = '?'

/-- `String.prototype.trim()` on a character list. -/
def trimCs (cs : List Char) : List Char :=
  ((cs.dropWhile isWs).reverse.dropWhile isWs).reverse

/-- `String.prototype.trim()`. -/
def jsTrim (s : String) : String :=
  String.mk (trimCs s.data)

/-- Generic splitter for `text.split(/[X]+/)` where `X` is the character
class `p`: fragments between maximal runs of `p`-characters.  As in JS, a
leading or trailing run yields an empty fragment and the empty string
splits to `[""]`.  A `p`-character whose successor is also a `p`-character
is interior to a run and contributes nothing; the last character of a run
closes a fragment. -/
def splitRunsBy (p : Char → Bool) : List Char → List (List Char)
  | [] => [[]]
  | [c] => if p c then [[], []] else [[c]]
  | c :: d :: rest =>
    let r := splitRunsBy p (d :: rest)
    if p c then
      if p d then r else [] :: r
    else
      match r with
      | [] => [[c]]
      | f :: fs => (c :: f) :: fs

/-- `text.split(/[.!?]+/)` on a character list. -/
def splitTermRaw (cs : List Char) : List (List Char) :=
  splitRunsBy isTerm cs

/-- `text.split(/[.!?]+/).filter(s => s.trim().length > 0)`, the sentence
list both `chunkText` and the chunking loop of `storeDocument` operate on
(`src/lib/vectorUtils.ts`, line 140). -/
def sentencesOf (text : String) : List String :=
  ((splitTermRaw text.data).map fun cs => String.mk cs).filter
    fun s => 0 < (jsTrim s).length

/-- `text.split(/[.!?]+/).length`, the raw sentence count used as a
document-level feature by `generateEmbedding` (line 86). -/
def rawSentCount (text : String) : Nat :=
  (splitTermRaw text.data).length

/-- One iteration of the sentence-accumulation loop of `chunkText`
(`src/lib/vectorUtils.ts`, lines 144–151): close the running buffer when the
next sentence would overflow `maxChunkSize` and the buffer is non-empty,
otherwise append the sentence followed by a period. -/
def chunkStep (maxChunkSize : Nat) (st : List String × String) (sentence : String) :
    List String × String :=
  if st.2.length + sentence.length > maxChunkSize ∧ st.2.length > 0 then
    (st.1 ++ [jsTrim st.2], sentence)
  else
    (st.1, st.2 ++ sentence ++ ".")

/-- `chunkText(text, maxChunkSize)` (`src/lib/vectorUtils.ts`, lines
139–158): greedy sentence accumulation followed by a final flush of the
non-empty buffer. -/
def chunkText (text : String) (maxChunkSize : Nat) : List String :=
  let st := (sentencesOf text).foldl (chunkStep maxChunkSize) ([], "")
  if 0 < (jsTrim st.2).length then st.1 ++ [jsTrim st.2] else st.1

/-- Characters that are neither sentence terminators nor whitespace: the
payload characters preserved by chunking (the chunker only adds `.`
separators and trims whitespace). -/
def charKeep (c : Char) : Bool :=
  !(isTerm c || isWs c)

/-- A string reduced to its payload characters (sentence terminators and
whitespace removed), the measure under which chunking is lossless. -/
def stripSep (s : String) : String :=
  String.mk (s.data.filter charKeep)

/-! ## Numeric model

`generateEmbedding` computes with JS `number`s.  The computation is embedded
generically over an operation record `NumOps R`, so each theorem names the
model it is read in:

* `jsOpsWith …` / `jsOpsRef` — carrier `Option ℚ`, where `none` models IEEE
  NaN and `some q` a finite value taken as an exact rational (float rounding
  is idealized away; the NaN-producing operations of the source — `0/0` and
  the square root of a negative or NaN value — are modelled exactly).  The
  finite values of the transcendental primitives `Math.sin/cos/tan/log/log2/
  sqrt` are irrational and are supplied as parameters; no theorem below
  depends on them.
* `realOps` — carrier `ℝ` with the genuine transcendental functions: exact
  real arithmetic, in which `x / 0 = 0` replaces NaN/Infinity.
-/

/-- The arithmetic interface of the JS `number` operations used by
`generateEmbedding`.  `gtZero x` is the test `x > 0`. -/
structure NumOps (R : Type) where
  ofRat : ℚ → R
  add : R → R → R
  sub : R → R → R
  mul : R → R → R
  div : R → R → R
  sin : R → R
  cos : R → R
  tan : R → R
  log : R → R
  log2 : R → R
  sqrt : R → R
  gtZero : R → Bool

/-- Lift a binary rational operation to the NaN-propagating carrier. -/
def nanLift2 (f : ℚ → ℚ → ℚ) : Option ℚ → Option ℚ → Option ℚ
  | some a, some b => some (f a b)
  | _, _ => none

/-- JS float model on `Option ℚ` (`none` = NaN).  The transcendental
primitives are given by the rational-valued parameters, lifted so that they
propagate NaN; `sqrt` additionally maps negative arguments to NaN as
`Math.sqrt` does.  Division by zero: `0 / 0` is NaN; a nonzero numerator
over zero (JS ±Infinity) is collapsed to NaN as well — no reachable division
in the embedded code has that shape. -/
def jsOpsWith (sinQ cosQ tanQ logQ log2Q sqrtQ : ℚ → ℚ) : NumOps (Option ℚ) where
  ofRat q := some q
  add := nanLift2 (· + ·)
  sub := nanLift2 (· - ·)
  mul := nanLift2 (· * ·)
  div a b :=
    match a, b with
    | some _, some 0 => none
    | some a, some b => some (a / b)
    | _, _ => none
  sin := fun a => a.map sinQ
  cos := fun a => a.map cosQ
  tan := fun a => a.map tanQ
  log := fun a => a.map logQ
  log2 := fun a => a.map log2Q
  sqrt := fun a =>
    match a with
    | some q => if q < 0 then none else some (sqrtQ q)
    | none => none
  gtZero := fun a =>
    match a with
    | some q => decide (0 < q)
    | none => false

/-- Reference instance of the float model.  The placeholder value `0` for
the finite outputs of the transcendental primitives is arbitrary: the
theorems proved against `jsOpsRef` never depend on those outputs. -/
def jsOpsRef : NumOps (Option ℚ) :=
  jsOpsWith (fun _ => 0) (fun _ => 0) (fun _ => 0) (fun _ => 0) (fun _ => 0) (fun _ => 0)

open Classical in
/-- Idealized exact-real model of the JS numbers, with the genuine
transcendental functions. -/
noncomputable def realOps : NumOps ℝ where
  ofRat q := (q : ℝ)
  add := (· + ·)
  sub := (· - ·)
  mul := (· * ·)
  div := (· / ·)
  sin := Real.sin
  cos := Real.cos
  tan := Real.tan
  log := Real.log
  log2 := fun x => Real.logb 2 x
  sqrt := Real.sqrt
  gtZero := fun x => decide (0 < x)

/-! ## Text preprocessing of `generateEmbedding`
(`src/lib/vectorUtils.ts`, lines 24–30) -/

/-- `text.toLowerCase()` (ASCII case mapping). -/
def jsToLower (s : String) : String :=
  String.mk (s.data.map Char.toLower)

/-- The JS `\w` class `[A-Za-z0-9_]`. -/
def isWordCharJS (c : Char) : Bool :=
  ('a' ≤ c && c ≤ 'z') || ('A' ≤ c && c ≤ 'Z') || ('0' ≤ c && c ≤ '9') || c = '_'

/-- `.replace(/\s+/g, ' ')`: collapse every whitespace run to one space
(emitted at the last character of the run). -/
def collapseWs : List Char → List Char
  | [] => []
  | c :: rest =>
    if isWs c then
      match rest with
      | d :: _ => if isWs d then collapseWs rest else ' ' :: collapseWs rest
      | [] => [' ']
    else c :: collapseWs rest

/-- `split(/\s+/)` on a character list (fragments between whitespace runs). -/
def splitWsRaw (cs : List Char) : List (List Char) :=
  splitRunsBy isWs cs

/-- Lines 24–27: lowercase, replace every non-`\w`, non-`\s` character with
a space, collapse whitespace, trim. -/
def cleanTextCs (text : String) : List Char :=
  trimCs (collapseWs ((jsToLower text).data.map
    fun c => if !(isWordCharJS c || isWs c) then ' ' else c))

/-- Line 29: `cleanText.split(/\s+/).filter(word => word.length > 2)`. -/
def wordsOf (text : String) : List String :=
  ((splitWsRaw (cleanTextCs text)).map fun cs => String.mk cs).filter
    fun w => w.length > 2

/-- `[...new Set(words)]`: distinct elements in first-occurrence order. -/
def uniqFirstAux (seen : List String) : List String → List String
  | [] => []
  | w :: ws =>
    if w ∈ seen then uniqFirstAux seen ws
    else w :: uniqFirstAux (w :: seen) ws

/-- `[...new Set(words)]` (line 30). -/
def uniqFirst (l : List String) : List String :=
  uniqFirstAux [] l

/-! ## Hashing (lines 46–58 and 74–79)

`hash = ((hash << 5) - hash + char + seed*31) & 0x7fffffff` keeps the value
in `[0, 2³¹)`.  The 32-bit wrap of the JS `<<` operator is congruent to
plain multiplication modulo `2³¹`, so the step reduces to exact natural
arithmetic modulo `2³¹`.  Characters are UTF-16 units in JS and code points
here (identical on the BMP). -/

/-- One character step of the seeded word hash (line 52). -/
def hashStep (seed : Nat) (h : Nat) (c : Char) : Nat :=
  (32 * h - h + c.toNat + seed * 31) % 2 ^ 31

/-- The seeded word hash of lines 47–53. -/
def wordHash (seed : Nat) (w : String) : Nat :=
  w.data.foldl (hashStep seed) 0

/-- One character step of the positional hash (line 76):
`posHash = ((posHash << 3) + charCode + i) & 0x7fffffff`. -/
def posHashStep (i : Nat) (h : Nat) (c : Char) : Nat :=
  (8 * h + c.toNat + i) % 2 ^ 31

/-- The positional hash of lines 74–77. -/
def posHash (i : Nat) (w : String) : Nat :=
  w.data.foldl (posHashStep i) 0

/-! ## The embedding accumulation (lines 33–110) -/

/-- `embedding[i] += x` on the 384-slot array. -/
def bump {R : Type} (O : NumOps R) (v : List R) (i : Nat) (x : R) : List R :=
  v.set i (O.add (v.getD i (O.ofRat 0)) x)

/-- The five hash passes for one unique word (lines 42–67): three target
dimensions per pass, accumulating `weight·sin`, `weight·cos`, `weight·tan`
contributions.  `weight = tf · Math.log(|uniqueWords| / (1 + wordIndex))`. -/
def tfContrib {R : Type} (O : NumOps R) (words uniq : List String)
    (wordIndex : Nat) (w : String) (v : List R) : List R :=
  let tf := O.div (O.ofRat (words.count w)) (O.ofRat (words.length))
  (List.range 5).foldl (fun v hf =>
    let h := wordHash hf w
    let weight := O.mul tf (O.log (O.div (O.ofRat (uniq.length)) (O.ofRat (1 + wordIndex))))
    let v := bump O v (h % 384) (O.mul weight (O.sin (O.ofRat ((h : ℚ) / 1000))))
    let v := bump O v ((h * 31) % 384) (O.mul weight (O.cos (O.ofRat ((h : ℚ) / 1000))))
    bump O v ((h * 97) % 384) (O.mul weight (O.tan (O.ofRat ((h : ℚ) / 10000))))) v

/-- The TF-IDF-inspired stage: fold `tfContrib` over the unique words with
their first-occurrence indices (lines 42–67). -/
def tfStage {R : Type} (O : NumOps R) (words uniq : List String) (v : List R) : List R :=
  uniq.enum.foldl (fun v p => tfContrib O words uniq p.1 p.2 v) v

/-- Positional encoding (lines 70–81): for the first 50 words, add
`(1/(i+1)) · 0.1` into dimension `posHash % 384`. -/
def posStage {R : Type} (O : NumOps R) (words : List String) (v : List R) : List R :=
  (words.take 50).enum.foldl (fun v p =>
    bump O v (posHash p.1 p.2 % 384)
      (O.mul (O.div (O.ofRat 1) (O.ofRat (p.1 + 1))) (O.ofRat (1 / 10)))) v

/-- `calculateEntropy` (lines 121–136): Shannon entropy of the word
frequency distribution; the frequency object is iterated in insertion
(first-occurrence) order. -/
def entropyOf {R : Type} (O : NumOps R) (words : List String) : R :=
  (uniqFirst words).foldl (fun e w =>
    let p := O.div (O.ofRat (words.count w)) (O.ofRat (words.length))
    if O.gtZero p then O.sub e (O.mul p (O.log2 p)) else e) (O.ofRat 0)

/-- Document-level features (lines 83–92): average word length, entropy,
raw sentence count and token count into dimensions 0–3.  For an empty word
list the average is `0/0` — NaN in the float model. -/
def featStage {R : Type} (O : NumOps R) (text : String) (words : List String)
    (v : List R) : List R :=
  let avg := O.div (O.ofRat ((words.map String.length).sum)) (O.ofRat (words.length))
  let v := bump O v 0 (O.mul avg (O.ofRat (1 / 100)))
  let v := bump O v 1 (O.mul (entropyOf O words) (O.ofRat (1 / 100)))
  let v := bump O v 2 (O.mul (O.ofRat (rawSentCount text)) (O.ofRat (1 / 1000)))
  bump O v 3 (O.mul (O.ofRat (words.length)) (O.ofRat (1 / 10000)))

/-- `embedding.reduce((sum, val) => sum + val * val, 0)` (line 95). -/
def sumSq {R : Type} (O : NumOps R) (v : List R) : R :=
  v.foldl (fun s x => O.add s (O.mul x x)) (O.ofRat 0)

/-- The pre-normalization accumulator: a zero vector of length 384 through
the TF, positional and document-feature stages, for a given word list. -/
def preEmbedData {R : Type} (O : NumOps R) (text : String) (words : List String) : List R :=
  featStage O text words
    (posStage O words (tfStage O words (uniqFirst words) (List.replicate 384 (O.ofRat 0))))

/-- The body of `generateEmbedding` (lines 19–110): accumulate, then L2
normalize when the computed norm satisfies `norm > 0`. -/
def generateEmbeddingCore {R : Type} (O : NumOps R) (text : String) : List R :=
  let v := preEmbedData O text (wordsOf text)
  let norm := O.sqrt (sumSq O v)
  if O.gtZero norm then v.map (fun x => O.div x norm) else v

/-- `generateEmbedding` with its `catch` clause (lines 111–117): `rand`
models the `Math.random()` stream of the fallback vector.  Every operation
in the `try` block is total, so the fallback is unreachable and the result
never consults `rand`. -/
def generateEmbedding {R : Type} (O : NumOps R) (rand : Nat → ℚ) (text : String) :
    List R :=
  generateEmbeddingCore O text

/-! ## Local fallback store (`src/lib/localStorage.ts`) -/

/-- A record of the local document collection (`LocalDocument`,
`src/lib/localStorage.ts`, lines 2–9).  `userId = none` models the JS
`undefined`. -/
structure LocalDocument where
  id : String
  fileName : String
  fileType : String
  content : String
  timestamp : String
  userId : Option String
deriving DecidableEq, Repr

/-- JS string truthiness: `undefined` and `""` are falsy. -/
def strTruthy : Option String → Bool
  | some s => s ≠ ""
  | none => false

/-- `userId ? documents.filter(doc => doc.userId === userId) : documents`
(line 63). -/
def filterByUser (docs : List LocalDocument) (userId : Option String) :
    List LocalDocument :=
  if strTruthy userId then docs.filter fun d => d.userId = userId else docs

/-- `query.toLowerCase().split(/\s+/)` (line 65).  As in JS, leading or
trailing whitespace contributes empty fragments. -/
def searchTermsOf (query : String) : List String :=
  (splitWsRaw (jsToLower query).data).map fun cs => String.mk cs

/-- `` `${doc.fileName} ${doc.content}`.toLowerCase() `` (lines 68, 73). -/
def docSearchText (d : LocalDocument) : String :=
  jsToLower (d.fileName ++ " " ++ d.content)

/-- Does `needle` occur as a prefix of `hay`? -/
def prefixMatch : List Char → List Char → Bool
  | [], _ => true
  | _ :: _, [] => false
  | a :: as, b :: bs => a = b && prefixMatch as bs

/-- `hay.includes(needle)` on character lists (the empty needle matches
everything, as in JS). -/
def inclAux (needle : List Char) : List Char → Bool
  | [] => prefixMatch needle []
  | c :: rest => prefixMatch needle (c :: rest) || inclAux needle rest

/-- `searchText.includes(term)`. -/
def termMatches (d : LocalDocument) (term : String) : Bool :=
  inclAux term.data (docSearchText d).data

/-- `searchTerms.filter(term => searchText.includes(term)).length`
(lines 72–77): the number of matching query tokens, counted with
multiplicity over the split query. -/
def docMatchCount (terms : List String) (d : LocalDocument) : Nat :=
  (terms.filter fun t => termMatches d t).length

/-- The ES2019 `Array.prototype.sort` is stable, and the comparator
`(a, b) => bMatches - aMatches` orders purely by the match-count key in
descending order; the resulting list is therefore the concatenation of the
equal-count groups, from the largest count down, each group in original
order. -/
def sortByMatchesDesc (terms : List String) (l : List LocalDocument) :
    List LocalDocument :=
  (((List.range (terms.length + 1)).reverse).map fun k =>
    l.filter fun d => docMatchCount terms d = k).flatten

/-- `searchDocumentsLocal(query, userId?)` (`src/lib/localStorage.ts`,
lines 60–84), over an explicit stored collection `docs`. -/
def searchDocumentsLocal (docs : List LocalDocument) (query : String)
    (userId : Option String) : List LocalDocument :=
  let terms := searchTermsOf query
  sortByMatchesDesc terms
    ((filterByUser docs userId).filter fun d => terms.any (termMatches d))

/-- Modelled from the spec (§4.4): ranking key "count of distinct query
tokens found".  Used only to compare the spec's wording against the code,
which counts tokens with multiplicity. -/
def distinctMatchCount (terms : List String) (d : LocalDocument) : Nat :=
  ((uniqFirst terms).filter fun t => termMatches d t).length

/-! ## Local-search fallback reshaping (C6)

`src/hooks/useChat.ts` lines 56–65 and
`src/components/DocumentManager.tsx` lines 137–148. -/

/-- The `SearchResult` shape produced by the `useChat` fallback. -/
structure ChatSearchResult where
  score : ℚ
  fileName : String
  fileType : String
  content : String
deriving DecidableEq, Repr

/-- The `SearchResult` shape produced by the `DocumentManager` fallback. -/
structure ManagerSearchResult where
  score : ℚ
  fileName : String
  fileType : String
  content : String
  timestamp : String
deriving DecidableEq, Repr

/-- `useChat.ts` lines 57–64:
`localResults.slice(0, 3).map((doc, index) => ({ score:
Math.max(0.9 - index * 0.1, 0.1), metadata: { … } }))`. -/
def chatFallbackResults (localResults : List LocalDocument) :
    List ChatSearchResult :=
  (localResults.take 3).enum.map fun p =>
    { score := max (9 / 10 - (p.1 : ℚ) * (1 / 10)) (1 / 10)
      fileName := p.2.fileName
      fileType := p.2.fileType
      content := p.2.content }

/-- `DocumentManager.tsx` lines 139–147: same synthesized scores over
`slice(0, 10)`, with the content preview truncated at 200 characters. -/
def managerFallbackResults (localResults : List LocalDocument) :
    List ManagerSearchResult :=
  (localResults.take 10).enum.map fun p =>
    { score := max (9 / 10 - (p.1 : ℚ) * (1 / 10)) (1 / 10)
      fileName := p.2.fileName
      fileType := p.2.fileType
      content := String.mk (p.2.content.data.take 200) ++
        (if p.2.content.length > 200 then "..." else "")
      timestamp := p.2.timestamp }

/-! ## Markdown cleanup of `storeDocument`
(`src/lib/vectorUtils.ts`, lines 183–188) -/

/-- `.replace(/\*\*/g, '')`: delete every non-overlapping `**`, scanning
left to right. -/
def removeBold : List Char → List Char
  | '*' :: '*' :: rest => removeBold rest
  | c :: rest => c :: removeBold rest
  | [] => []

/-- Helper for `.replace(/#{1,6}\s/g, '')`: `run` counts the `#`-characters
read so far in the current run.  When a `#`-run of length `r` is followed
by a whitespace character, the pattern (which may start at any position,
and with backtracking can only consume the tail of the run) matches the
last `min r 6` hashes together with that whitespace, so `r - 6` leading
hashes survive; a run not followed by whitespace survives whole. -/
def removeHeadersAux (run : Nat) : List Char → List Char
  | [] => List.replicate run '#'
  | c :: rest =>
    if c = '#' then removeHeadersAux (run + 1) rest
    else if 0 < run ∧ isWs c then
      List.replicate (run - 6) '#' ++ removeHeadersAux 0 rest
    else
      List.replicate run '#' ++ (c :: removeHeadersAux 0 rest)

/-- `.replace(/#{1,6}\s/g, '')` (line 185). -/
def removeHeaders (cs : List Char) : List Char :=
  removeHeadersAux 0 cs

/-- The bullet class `[-*+]`. -/
def isBullet (c : Char) : Bool :=
  c = '-' || c = '*' || c = '+'

/-- Scanner state for `.replace(/^\s*[-*+]\s/gm, '')`: `normal` is a
position with no line-start anchor in progress; `start pend` is an anchored
scan with `pend` the whitespace buffered so far (the `\s*` of the pattern,
which may span newlines); `afterBullet pend b` has additionally read the
bullet character `b` and awaits one whitespace character to complete the
match. -/
inductive BulState where
  | normal
  | start (pend : List Char)
  | afterBullet (pend : List Char) (b : Char)

def removeBulletsAux (st : BulState) : List Char → List Char
  | [] =>
    match st with
    | .normal => []
    | .start pend => pend
    | .afterBullet pend b => pend ++ [b]
  | c :: rest =>
    match st with
    | .normal =>
      if c = '\n' then c :: removeBulletsAux (.start []) rest
      else c :: removeBulletsAux .normal rest
    | .start pend =>
      if isWs c then removeBulletsAux (.start (pend ++ [c])) rest
      else if isBullet c then removeBulletsAux (.afterBullet pend c) rest
      else pend ++ (c :: removeBulletsAux .normal rest)
    | .afterBullet pend b =>
      if isWs c then
        removeBulletsAux (if c = '\n' then .start [] else .normal) rest
      else pend ++ [b] ++ (c :: removeBulletsAux .normal rest)

/-- `.replace(/^\s*[-*+]\s/gm, '')` (line 186).  A match greedily consumes
the whitespace run from a line-start anchor, one bullet and one trailing
whitespace character (run characters are never bullets, so the greedy run
is the only candidate, and the match test has the same outcome from every
anchor inside the run); failing that, the scanned characters are emitted
unchanged.  After a match the position is a line start only when the
trailing consumed whitespace was a newline. -/
def removeBullets (atStart : Bool) (cs : List Char) : List Char :=
  removeBulletsAux (if atStart then .start [] else .normal) cs

/-- Helper for `.replace(/\n{3,}/g, '\n\n')`: `run` counts the newlines
read in the current run; a completed run of three or more is emitted as
exactly two newlines, shorter runs unchanged. -/
def collapseNL3Aux (run : Nat) : List Char → List Char
  | [] => if run ≥ 3 then ['\n', '\n'] else List.replicate run '\n'
  | c :: rest =>
    if c = '\n' then collapseNL3Aux (run + 1) rest
    else if run ≥ 3 then '\n' :: '\n' :: (c :: collapseNL3Aux 0 rest)
    else List.replicate run '\n' ++ (c :: collapseNL3Aux 0 rest)

/-- `.replace(/\n{3,}/g, '\n\n')` (line 187). -/
def collapseNL3 (cs : List Char) : List Char :=
  collapseNL3Aux 0 cs

/-- The content cleanup of `storeDocument` (lines 183–188): strip bold
markers, headers and bullets, collapse blank-line runs, trim. -/
def cleanContent (content : String) : String :=
  jsTrim (String.mk (collapseNL3 (removeBullets true (removeHeaders
    (removeBold content.data)))))

/-! ## Remote index environment

`src/lib/pinecone.ts` and the Pinecone calls of `src/lib/vectorUtils.ts`
are network operations; they are modelled by an environment of success
oracles and query results. -/

/-- One match returned by `index.query`; optional fields model properties
that may be `undefined` on the wire. -/
structure QueryMatch where
  id : String
  score : ℚ
  fileName : Option String
  fileType : String
  timestamp : String
  totalChunks : Option Nat
deriving DecidableEq, Repr

/-- The remote/configuration environment of one run: which configuration
variables are present, which network calls succeed, and what the index
returns.  `upsertOk n` / `deleteOk n` are the outcomes of the `n`-th upsert
(resp. delete) batch; `queryResult topK userId` is the match list of a
query. -/
structure PineEnv where
  apiKey : Bool
  indexName : Bool
  getIndexOk : Bool
  upsertOk : Nat → Bool
  queryOk : Bool
  query2Ok : Bool
  queryResult : Nat → Option String → List QueryMatch
  deleteOk : Nat → Bool
  localClearOk : Bool
  now : Nat
  iso : String

/-- `userId || 'default-user'` (line 220). -/
def jsOrDefault (userId : Option String) (dflt : String) : String :=
  match userId with
  | some s => if s = "" then dflt else s
  | none => dflt

/-- `fileName.replace(/[^a-zA-Z0-9.-]/g, '_')` (line 213). -/
def sanitizeFileName (s : String) : String :=
  String.mk (s.data.map fun c =>
    if ('a' ≤ c && c ≤ 'z') || ('A' ≤ c && c ≤ 'Z') || ('0' ≤ c && c ≤ '9')
        || c = '.' || c = '-' then c else '_')

/-- The metadata record of a stored vector (lines 215–224). -/
structure DocMetadata where
  fileName : String
  fileType : String
  content : String
  timestamp : String
  userId : String
  chunkIndex : Nat
  totalChunks : Nat
  chunkLength : Nat
deriving DecidableEq, Repr

/-- `DocumentVector` (lines 3–16). -/
structure DocumentVector (R : Type) where
  id : String
  values : List R
  metadata : DocMetadata

/-- The vector prepared for one chunk (lines 208–228).  The embedding step
sits in a per-chunk `try/catch`, but `generateEmbedding` is total, so every
chunk yields a vector. -/
def prepVector {R : Type} (O : NumOps R) (env : PineEnv)
    (fileName fileType : String) (userId : Option String) (total : Nat)
    (chunkIndex : Nat) (chunk : String) : DocumentVector R :=
  { id := sanitizeFileName fileName ++ "_" ++ toString env.now ++ "_" ++
      toString chunkIndex
    values := generateEmbeddingCore O chunk
    metadata :=
      { fileName := fileName
        fileType := fileType
        content := String.mk (chunk.data.take 1000)
        timestamp := env.iso
        userId := jsOrDefault userId "default-user"
        chunkIndex := chunkIndex
        totalChunks := total
        chunkLength := chunk.length } }

/-- All vectors prepared by one `storeDocument` call, in chunk order
(lines 197–238). -/
def preparedVectors {R : Type} (O : NumOps R) (env : PineEnv)
    (fileName fileType content : String) (userId : Option String) :
    List (DocumentVector R) :=
  let chunks := chunkText (cleanContent content) 800
  chunks.enum.map fun p => prepVector O env fileName fileType userId
    chunks.length p.1 p.2

/-- The batch slicing `for (let i = 0; i < l.length; i += size)
{ l.slice(i, i + size) }`. -/
def sliceBatchesAux {α : Type} (size : Nat) : List α → List α → Nat → List (List α)
  | [], cur, _ => if cur.isEmpty then [] else [cur.reverse]
  | a :: l, cur, k =>
    if k ≤ 1 then ((a :: cur).reverse) :: sliceBatchesAux size l [] size
    else sliceBatchesAux size l (a :: cur) (k - 1)

/-- The batch slicing `for (let i = 0; i < l.length; i += size)
{ l.slice(i, i + size) }`: consecutive slices of `size` elements, the last
possibly shorter.  Implemented by a single structural walk (`cur` is the
current slice reversed, `k` its remaining capacity). -/
def sliceBatches {α : Type} (size : Nat) (l : List α) : List (List α) :=
  if size = 0 then [] else sliceBatchesAux size l [] size

/-- `storeDocument(fileName, fileType, content, userId)`
(`src/lib/vectorUtils.ts`, lines 161–276).  Returns the thrown-or-ok
outcome together with the trace of attempted upsert batches (each paired
with its success per `env.upsertOk`); a failed batch is caught inside the
loop (lines 251–262) and the loop continues. -/
def storeDocument {R : Type} (O : NumOps R) (env : PineEnv)
    (fileName fileType content : String) (userId : Option String) :
    Except String Unit × List (List (DocumentVector R) × Bool) :=
  if ¬ env.apiKey then
    (.error "Pinecone API key not available - check environment variables", [])
  else if ¬ env.getIndexOk then
    (.error "getIndex failed", [])
  else
    let chunks := chunkText (cleanContent content) 800
    if chunks.length = 0 then
      (.error "No content chunks to process", [])
    else
      let vectors := preparedVectors O env fileName fileType content userId
      if vectors.length = 0 then
        (.error "No vectors were successfully created", [])
      else
        (.ok (), (sliceBatches 10 vectors).enum.map fun p =>
          (p.2, env.upsertOk p.1))

/-! ## Listing and clearing (`src/lib/vectorUtils.ts`, lines 329–475) -/

/-- A document summary produced by `getUserDocuments` (lines 357–364). -/
structure DocSummary where
  fileName : String
  fileType : String
  timestamp : String
  score : ℚ
  totalChunks : Nat
deriving DecidableEq, Repr

/-- `match.metadata.totalChunks || 1`: `undefined` and `0` are falsy. -/
def totalChunksOrOne : Option Nat → Nat
  | some 0 => 1
  | some n => n
  | none => 1

/-- The group-by-fileName reduction of lines 353–366: keep the first match
per truthy `fileName`. -/
def dedupByFileName (seen : List String) : List QueryMatch → List DocSummary
  | [] => []
  | m :: ms =>
    match m.fileName with
    | some name =>
      if name ≠ "" ∧ name ∉ seen then
        { fileName := name
          fileType := m.fileType
          timestamp := m.timestamp
          score := m.score
          totalChunks := totalChunksOrOne m.totalChunks } ::
          dedupByFileName (name :: seen) ms
      else
        dedupByFileName seen ms
    | none => dedupByFileName seen ms

/-- The `try` body of `getUserDocuments` (lines 330–371): obtain the index,
run a broad query (`topK = 100`, optional `userId` filter), group by file
name. -/
def getUserDocumentsBody (env : PineEnv) (userId : Option String) :
    Except String (List DocSummary) :=
  if ¬ env.getIndexOk then .error "getIndex failed"
  else if ¬ env.queryOk then .error "query failed"
  else .ok (dedupByFileName [] (env.queryResult 100 userId))

/-- `getUserDocuments` with its `catch` (lines 372–375): any failure is
swallowed and the empty list returned. -/
def getUserDocuments (env : PineEnv) (userId : Option String) :
    List DocSummary :=
  match getUserDocumentsBody env userId with
  | .ok docs => docs
  | .error _ => []

/-- `getUserDocuments` seen from its caller: the outcome as an exception
value.  The catch-all handler makes the function total, so the result is
always `ok`. -/
def getUserDocumentsE (env : PineEnv) (userId : Option String) :
    Except String (List DocSummary) :=
  .ok (getUserDocuments env userId)

/-- `clearUserDocuments(userId?)` (lines 379–442): result and the trace of
attempted delete batches.  A failed delete batch is caught inside the loop
(lines 423–434); a failure of `getIndex` or of the id-collection query is
rethrown by the outer catch (lines 438–441).  `getUserDocuments` never
throws; when it reports no documents (including when its own query failed),
the function returns early with success. -/
def clearUserDocuments (env : PineEnv) (userId : Option String) :
    Except String Unit × List (List String × Bool) :=
  if ¬ env.getIndexOk then (.error "getIndex failed", [])
  else
    let documents := getUserDocuments env userId
    if documents.length = 0 then (.ok (), [])
    else if ¬ env.query2Ok then (.error "query failed", [])
    else
      let vectorIds := (env.queryResult 10000 userId).map (·.id)
      if vectorIds.length = 0 then (.ok (), [])
      else
        (.ok (), (sliceBatches 100 vectorIds).enum.map fun p =>
          (p.2, env.deleteOk p.1))

/-- `clearAllStoredDocuments(userId?)` (lines 445–475).  Returns the
outcome, the number of times the local collection was cleared, and the
delete-batch trace of the remote path.  The `try` body clears local storage
first, then the remote store; the `catch` clears local storage again
(swallowing a local failure) and rethrows the original error. -/
def clearAllStoredDocuments (env : PineEnv) (userId : Option String) :
    Except String Unit × Nat × List (List String × Bool) :=
  if ¬ env.localClearOk then
    -- `clearAllDocuments()` throws; the catch retries it (it fails again,
    -- and that failure is swallowed) and rethrows the original error.
    (.error "local clear failed", 0, [])
  else
    match clearUserDocuments env userId with
    | (.ok _, dels) => (.ok (), 1, dels)
    | (.error e, dels) => (.error e, 2, dels)

/-! ## The document-listing flow
(`src/components/DocumentManager.tsx`, lines 49–115) -/

/-- Which backend served `loadUserDocuments`. -/
inductive Backend where
  | pinecone
  | localBk
deriving DecidableEq, Repr

/-- The inner `try` of `loadUserDocuments` (lines 60–79): explicit
environment pre-check (missing API key or index name throws), then
`getUserDocuments`, which never throws. -/
def loadUserDocumentsTry (env : PineEnv) : Except String (List DocSummary) :=
  if ¬ (env.apiKey ∧ env.indexName) then
    .error "Missing Pinecone environment variables"
  else
    match getUserDocumentsE env (some "current-user") with
    | .ok docs => .ok docs
    | .error e => .error e

/-- `getUserDocumentsLocal` (`src/lib/localStorage.ts`, lines 87–95). -/
def getUserDocumentsLocal (docs : List LocalDocument) (userId : Option String) :
    List LocalDocument :=
  if strTruthy userId then docs.filter fun d => d.userId = userId else docs

/-- `loadUserDocuments` (lines 49–115): Pinecone first; its failure (which,
given `getUserDocumentsE`, can only be the environment pre-check) selects
the local fallback, reshaped with constant score `1.0`. -/
def loadUserDocuments (env : PineEnv) (localDocs : List LocalDocument) :
    Backend × List DocSummary :=
  match loadUserDocumentsTry env with
  | .ok docs => (.pinecone, docs)
  | .error _ =>
    (.localBk, (getUserDocumentsLocal localDocs (some "current-user")).map
      fun d =>
        { fileName := d.fileName
          fileType := d.fileType
          timestamp := d.timestamp
          score := 1
          totalChunks := 1 })

/-! ## The upload path (`src/utils/fileProcessor.ts`, lines 508–571)

This is where the 50-character guard of the spec lives: the file processor
cleans the extracted content and only calls `storeDocument` /
`storeDocumentLocal` when the cleaned content is longer than 50
characters. -/

/-- Helper for `.replace(/^#+ /gm, '')`: `run` counts the `#`-characters
read since a line-start anchor (`0` when the run, if any, did not begin at
an anchor).  The pattern is anchored, so only the full run can match: a
line-start run followed by a literal space is deleted whole, any other run
survives. -/
def removeHeadersMdAux (atStart : Bool) (run : Nat) : List Char → List Char
  | [] => List.replicate run '#'
  | c :: rest =>
    if 0 < run then
      if c = '#' then removeHeadersMdAux false (run + 1) rest
      else if c = ' ' then removeHeadersMdAux false 0 rest
      else List.replicate run '#' ++ (c :: removeHeadersMdAux (c = '\n') 0 rest)
    else if atStart ∧ c = '#' then removeHeadersMdAux false 1 rest
    else c :: removeHeadersMdAux (c = '\n') 0 rest

/-- `.replace(/^#+ /gm, '')` (line 513). -/
def removeHeadersMd (cs : List Char) : List Char :=
  removeHeadersMdAux true 0 cs

/-- `.replace(/^- /gm, '')` (line 514): a literal `- ` at a line start is
deleted. -/
def removeDashMd : Bool → List Char → List Char
  | _, [] => []
  | atStart, '-' :: ' ' :: rest =>
    if atStart then removeDashMd false rest
    else '-' :: ' ' :: removeDashMd false rest
  | _, '-' :: rest => '-' :: removeDashMd false rest
  | _, c :: rest => c :: removeDashMd (c = '\n') rest

/-- `.replace(/\n\n+/g, '\n')` (line 515): every run of two or more
newlines becomes one (so every newline run collapses to a single newline,
emitted at the last character of the run). -/
def collapseNL2 : List Char → List Char
  | [] => []
  | c :: rest =>
    if c = '\n' then
      match rest with
      | d :: _ => if d = '\n' then collapseNL2 rest else '\n' :: collapseNL2 rest
      | [] => ['\n']
    else c :: collapseNL2 rest

/-- The file processor's content cleanup (lines 511–516). -/
def cleanContentMd (s : String) : String :=
  jsTrim (String.mk (collapseNL2 (removeDashMd true (removeHeadersMd
    (removeBold s.data)))))

/-- A persistence call made by the upload path. -/
inductive StorageCall where
  | remote
  | localStore
deriving DecidableEq, Repr

/-- The storage section of `processFile` (lines 508–571): when storage is
enabled, the content truthy and error-free, clean the content; if the
cleaned length exceeds 50, try `storeDocument` and fall back to
`storeDocumentLocal` (whose success is `localOk`); otherwise skip storage
entirely.  Both attempts sit in `try/catch`, so the section never throws;
the returned flag is `storageSuccess`. -/
def processFileStorage {R : Type} (O : NumOps R) (env : PineEnv)
    (localOk : Bool) (storeInPinecone : Bool) (content : String)
    (hasError : Bool) (fileName fileType : String) :
    List StorageCall × Bool :=
  if storeInPinecone ∧ content ≠ "" ∧ ¬ hasError then
    let cc := cleanContentMd content
    if cc.length > 50 then
      match (storeDocument O env fileName fileType cc (some "current-user")).1 with
      | .ok _ => ([.remote], true)
      | .error _ =>
        if localOk then ([.remote, .localStore], true)
        else ([.remote, .localStore], false)
    else
      ([], true)
  else
    ([], true)

/-! ## Concrete fixtures used by witnesses and counterexamples -/

/-- An environment in which configuration is present and every remote call
succeeds. -/
def envAllOk : PineEnv :=
  { apiKey := true
    indexName := true
    getIndexOk := true
    upsertOk := fun _ => true
    queryOk := true
    query2Ok := true
    queryResult := fun _ _ => []
    deleteOk := fun _ => true
    localClearOk := true
    now := 0
    iso := "2024-01-01T00:00:00.000Z" }

/-- Same configuration, but the index bootstrap (`getIndex`) fails, so
every remote operation path throws. -/
def envRemoteDown : PineEnv :=
  { envAllOk with getIndexOk := false }

/-- A zero random stream for the (unreachable) embedding fallback. -/
def randZero : Nat → ℚ :=
  fun _ => 0

/-- Local fixture: a document whose text contains the token `foo`. -/
def docFoo : LocalDocument :=
  { id := "a_1"
    fileName := "a"
    fileType := "text/plain"
    content := "foo"
    timestamp := "t1"
    userId := some "current-user" }

/-- Local fixture: a document whose text contains the token `bar`. -/
def docBar : LocalDocument :=
  { id := "b_1"
    fileName := "b"
    fileType := "text/plain"
    content := "bar"
    timestamp := "t2"
    userId := some "current-user" }

/-! # Theorems -/

/-- C1 (counterexample): `storeDocument` itself has no short-content guard.
Called directly with `content = "hi"` — cleaned length 2 ≤ 50 — in a fully
working environment, it still attempts an upsert batch against the remote
index (the trace is non-empty), contradicting "performs no persistence call
to either backend". -/
theorem storeDocument_short_content_persists :
    (cleanContent "hi").length ≤ 50 ∧
    ((storeDocument jsOpsRef envAllOk "notes.txt" "text/plain" "hi" none).2).length = 1 ∧
    (storeDocument jsOpsRef envAllOk "notes.txt" "text/plain" "hi" none).1 =
      Except.ok () := by
  refine ⟨by decide, by decide, by decide⟩

/-- C1 (amended): the ≤ 50 guard lives in the upload path
(`processFile`, `src/utils/fileProcessor.ts` line 518), not in
`storeDocument`: whenever the file processor's cleaned content has length
at most 50, the storage section performs no persistence call to either
backend — neither `storeDocument` nor `storeDocumentLocal` is invoked —
and completes without error. -/
theorem processFile_short_content_skips_storage {R : Type} (O : NumOps R)
    (env : PineEnv) (localOk : Bool) (fileName fileType content : String)
    (h : (cleanContentMd content).length ≤ 50) :
    processFileStorage O env localOk true content false fileName fileType =
      ([], true) := by
  unfold processFileStorage
  have h50 : ¬ (cleanContentMd content).length > 50 := by omega
  by_cases hc : content = "" <;> simp [hc, h50]

/-- Witness for the amended C1 at `content = "hi"`. -/
theorem processFile_short_content_skips_storage_witness :
    (cleanContentMd "hi").length ≤ 50 ∧
    processFileStorage jsOpsRef envAllOk true true "hi" false "notes.txt"
      "text/plain" = ([], true) :=
  ⟨by decide, processFile_short_content_skips_storage jsOpsRef envAllOk true
    "notes.txt" "text/plain" "hi" (by decide)⟩

/-- C2 (counterexample): with the local store healthy and only the remote
path down, `clearAllStoredDocuments` still signals failure to its caller
(rethrow at line 473), even though the local collection was cleared — the
operation does not fail "only when both backends fail". -/
theorem clearAll_remote_only_failure_still_throws :
    envRemoteDown.localClearOk = true ∧
    1 ≤ (clearAllStoredDocuments envRemoteDown none).2.1 ∧
    (clearAllStoredDocuments envRemoteDown none).1 =
      Except.error "getIndex failed" := by
  refine ⟨by decide, by decide, by decide⟩

/-- C2 (amended): clearing is best-effort for the local store only — the
local collection is cleared (again, in the catch) even when the remote
path throws — but the overall operation succeeds if and only if the local
clear and the remote path both succeed: a remote failure alone is already
rethrown to the caller. -/
theorem clearAll_ok_iff_both_paths_ok (env : PineEnv) (userId : Option String) :
    ((clearAllStoredDocuments env userId).1 = Except.ok () ↔
      env.localClearOk = true ∧
        (clearUserDocuments env userId).1 = Except.ok ()) ∧
    (env.localClearOk = true →
      1 ≤ (clearAllStoredDocuments env userId).2.1) := by
  unfold clearAllStoredDocuments
  by_cases h : env.localClearOk
  · rcases hcu : clearUserDocuments env userId with ⟨res, dels⟩
    cases res <;> simp [h, hcu]
  · simp [h]

/-- Witness for the amended C2: both directions at concrete environments. -/
theorem clearAll_ok_iff_both_paths_ok_witness :
    (clearAllStoredDocuments envAllOk none).1 = Except.ok () ∧
    1 ≤ (clearAllStoredDocuments envRemoteDown none).2.1 :=
  ⟨(clearAll_ok_iff_both_paths_ok envAllOk none).1.mpr ⟨by decide, by decide⟩,
    (clearAll_ok_iff_both_paths_ok envRemoteDown none).2 (by decide)⟩

/-- C10 (confirmed): `getUserDocuments` never propagates an exception — its
catch-all handler converts every failure into the empty list, so the
caller-visible outcome is always `ok`.  Consequently, in
`loadUserDocuments` the local fallback branch is taken exactly when the
configuration pre-check (missing API key or index name) throws, and never
because a remote query failed. -/
theorem getUserDocuments_total_and_fallback_only_on_config
    (env : PineEnv) (u : Option String) (localDocs : List LocalDocument) :
    getUserDocumentsE env u = Except.ok (getUserDocuments env u) ∧
    ((loadUserDocuments env localDocs).1 = Backend.localBk ↔
      ¬ (env.apiKey = true ∧ env.indexName = true)) ∧
    ((loadUserDocuments env localDocs).1 = Backend.pinecone ↔
      (env.apiKey = true ∧ env.indexName = true)) := by
  refine ⟨rfl, ?_, ?_⟩ <;>
    · unfold loadUserDocuments loadUserDocumentsTry getUserDocumentsE
      by_cases h : env.apiKey ∧ env.indexName <;> simp [h]

/-! ### The stable key-descending bucket sort (C5 helpers) -/

theorem sum_map_ite_eq (k0 c : Nat) :
    ∀ ks : List Nat, ks.Nodup →
      (ks.map fun k => if k0 = k then c else 0).sum =
        if k0 ∈ ks then c else 0 := by
  intro ks
  induction ks with
  | nil => simp
  | cons k ks ih =>
    intro hnd
    rcases List.nodup_cons.mp hnd with ⟨hk, hnd'⟩
    by_cases h : k0 = k
    · subst h
      simp [ih hnd', hk]
    · simp [h, ih hnd', List.mem_cons]

theorem flatten_map_ite {α : Type} (k : Nat) (F : List α) :
    ∀ ks : List Nat, ks.Nodup →
      ((ks.map fun j => if k = j then F else []).flatten) =
        if k ∈ ks then F else [] := by
  intro ks
  induction ks with
  | nil => simp
  | cons j ks ih =>
    intro hnd
    rcases List.nodup_cons.mp hnd with ⟨hj, hnd'⟩
    by_cases h : k = j
    · subst h
      simp [ih hnd', hj]
    · simp [h, ih hnd', List.mem_cons]

theorem range_reverse_nodup (n : Nat) : ((List.range n).reverse).Nodup :=
  List.nodup_reverse.mpr (List.nodup_range n)

/-- The bucketed result is a permutation of its input. -/
theorem bucket_perm {α : Type} [DecidableEq α] (key : α → Nat) (l : List α)
    (n : Nat) (h : ∀ x ∈ l, key x ≤ n) :
    ((((List.range (n + 1)).reverse).map fun k =>
      l.filter fun d => key d = k).flatten).Perm l := by
  rw [List.perm_iff_count]
  intro a
  rw [List.count_flatten, List.map_map]
  have hcount : ∀ k : Nat,
      (l.filter fun d => key d = k).count a =
        if key a = k then l.count a else 0 := by
    intro k
    by_cases hk : key a = k
    · rw [List.count_filter (by simp [hk])]
      simp [hk]
    · have hnot : a ∉ l.filter fun d => key d = k := by
        intro hmem
        exact hk (by simpa using (List.mem_filter.mp hmem).2)
      simp [List.count_eq_zero.mpr hnot, hk]
  have hmap : ((List.range (n + 1)).reverse).map
        ((List.count a) ∘ fun k => l.filter fun d => key d = k) =
      ((List.range (n + 1)).reverse).map fun k =>
        if key a = k then l.count a else 0 :=
    List.map_congr_left fun k _ => hcount k
  rw [hmap, sum_map_ite_eq _ _ _ (range_reverse_nodup _)]
  by_cases ha : a ∈ l
  · simp [List.mem_reverse, List.mem_range, Nat.lt_succ_of_le (h a ha)]
  · simp [List.count_eq_zero.mpr ha]

/-- The bucketed result is sorted by descending key. -/
theorem bucket_sorted {α : Type} [DecidableEq α] (key : α → Nat) (l : List α)
    (n : Nat) :
    ((((List.range (n + 1)).reverse).map fun k =>
      l.filter fun d => key d = k).flatten).Pairwise
        fun x y => key y ≤ key x := by
  rw [List.pairwise_flatten]
  constructor
  · intro b hb
    rcases List.mem_map.mp hb with ⟨k, _, rfl⟩
    refine List.pairwise_of_forall_mem_list fun x hx y hy => ?_
    have hx' : key x = k := by simpa using (List.mem_filter.mp hx).2
    have hy' : key y = k := by simpa using (List.mem_filter.mp hy).2
    omega
  · rw [List.pairwise_map]
    have : ((List.range (n + 1)).reverse).Pairwise (· > ·) := by
      rw [List.pairwise_reverse]
      exact List.pairwise_lt_range _
    refine this.imp ?_
    intro k₁ k₂ hk x hx y hy
    have hx' : key x = k₁ := by simpa using (List.mem_filter.mp hx).2
    have hy' : key y = k₂ := by simpa using (List.mem_filter.mp hy).2
    omega

/-- Stability: within one key value, the bucketed result preserves the
input order (it is literally the input filtered to that key). -/
theorem bucket_stable {α : Type} [DecidableEq α] (key : α → Nat) (l : List α)
    (n k : Nat) (h : ∀ x ∈ l, key x ≤ n) :
    ((((List.range (n + 1)).reverse).map fun j =>
        l.filter fun d => key d = j).flatten).filter
          (fun d => key d = k) =
      l.filter fun d => key d = k := by
  rw [List.filter_flatten, List.map_map]
  have hmap : ((List.range (n + 1)).reverse).map
        ((List.filter fun d => key d = k) ∘ fun j => l.filter fun d => key d = j) =
      ((List.range (n + 1)).reverse).map fun j =>
        if k = j then l.filter fun d => key d = k else [] := by
    refine List.map_congr_left fun j _ => ?_
    simp only [Function.comp_apply]
    by_cases hkj : k = j
    · subst hkj
      simp [List.filter_filter]
    · rw [if_neg hkj]
      refine List.filter_eq_nil_iff.mpr fun d hd => ?_
      have hdj : key d = j := by simpa using (List.mem_filter.mp hd).2
      simp
      omega
  rw [hmap, flatten_map_ite _ _ _ (range_reverse_nodup _)]
  by_cases hk : k ∈ (List.range (n + 1)).reverse
  · simp [hk]
  · rw [if_neg hk]
    symm
    refine List.filter_eq_nil_iff.mpr fun d hd => ?_
    have h1 : key d ≤ n := h d hd
    have h2 : ¬ k < n + 1 := by simpa [List.mem_reverse, List.mem_range] using hk
    simp
    omega

/-- C5 (counterexample): the local search ranks by the count of query
tokens **with multiplicity**, not by the count of distinct tokens.  For the
query `"foo foo bar"` over the insertion-ordered store `[docBar, docFoo]`,
both documents contain exactly one distinct query token, so the claimed
ordering (ties in insertion order) would return `[docBar, docFoo]`; the
code counts the duplicated token `foo` twice and returns `[docFoo,
docBar]`. -/
theorem searchDocumentsLocal_distinct_rank_counterexample :
    searchDocumentsLocal [docBar, docFoo] "foo foo bar" none =
      [docFoo, docBar] ∧
    distinctMatchCount (searchTermsOf "foo foo bar") docFoo = 1 ∧
    distinctMatchCount (searchTermsOf "foo foo bar") docBar = 1 := by
  refine ⟨by decide, by decide, by decide⟩

/-- C5 (amended): the local search tokenizes the lowercased query on
whitespace, keeps exactly the records (filtered by `userId` when given)
whose lowercased `fileName + " " + content` contains at least one query
token, and orders them by the number of matching query tokens **counted
with multiplicity over the split query** (descending), ties in original
insertion order: the result is a permutation of the matching records,
pairwise sorted by that count, and within any one count value identical to
the insertion-ordered filter. -/
theorem searchDocumentsLocal_ranking (docs : List LocalDocument)
    (query : String) (userId : Option String) :
    (searchDocumentsLocal docs query userId).Perm
      ((filterByUser docs userId).filter fun d =>
        (searchTermsOf query).any (termMatches d)) ∧
    (searchDocumentsLocal docs query userId).Pairwise
      (fun a b => docMatchCount (searchTermsOf query) b ≤
        docMatchCount (searchTermsOf query) a) ∧
    ∀ k, (searchDocumentsLocal docs query userId).filter
        (fun d => docMatchCount (searchTermsOf query) d = k) =
      ((filterByUser docs userId).filter fun d =>
        (searchTermsOf query).any (termMatches d)).filter
          (fun d => docMatchCount (searchTermsOf query) d = k) := by
  have hb : ∀ x ∈ (filterByUser docs userId).filter fun d =>
      (searchTermsOf query).any (termMatches d),
      docMatchCount (searchTermsOf query) x ≤ (searchTermsOf query).length :=
    fun x _ => List.length_filter_le _ _
  refine ⟨?_, ?_, ?_⟩
  · exact bucket_perm (docMatchCount (searchTermsOf query)) _ _ hb
  · exact bucket_sorted (docMatchCount (searchTermsOf query)) _ _
  · intro k
    exact bucket_stable (docMatchCount (searchTermsOf query)) _ _ k hb

/-! ### Chunk size bound (C4 helpers) -/

theorem dropWhile_length_le {α : Type} (p : α → Bool) (l : List α) :
    (l.dropWhile p).length ≤ l.length := by
  induction l with
  | nil => simp
  | cons a l ih =>
    rw [List.dropWhile_cons]
    split
    · exact ih.trans (Nat.le_succ _)
    · exact Nat.le_refl _

theorem jsTrim_length_le (s : String) : (jsTrim s).length ≤ s.length := by
  show (trimCs s.data).length ≤ s.data.length
  unfold trimCs
  calc ((s.data.dropWhile isWs).reverse.dropWhile isWs).reverse.length
      = ((s.data.dropWhile isWs).reverse.dropWhile isWs).length := by
        rw [List.length_reverse]
    _ ≤ (s.data.dropWhile isWs).reverse.length := dropWhile_length_le _ _
    _ = (s.data.dropWhile isWs).length := by rw [List.length_reverse]
    _ ≤ s.data.length := dropWhile_length_le _ _

theorem string_eq_empty_of_length (s : String) (h : s.length = 0) : s = "" := by
  cases s with
  | mk data =>
    cases data with
    | nil => rfl
    | cons c cs => simp [String.length] at h

/-- The invariant carried through the accumulation loop of `chunkText`:
every already-closed chunk is within `maxChunkSize + 1` characters or is an
oversized sentence (trimmed, possibly with the appended period), and the
running buffer satisfies the corresponding untrimmed property. -/
theorem chunk_fold_inv (k : Nat) (sents : List String) :
    ∀ (l : List String) (st : List String × String),
      (∀ x ∈ l, x ∈ sents) →
      (∀ c ∈ st.1, c.length ≤ k + 1 ∨
        ∃ s ∈ sents, k < s.length ∧ (c = jsTrim s ∨ c = jsTrim (s ++ "."))) →
      (st.2.length ≤ k + 1 ∨
        ∃ s ∈ sents, k < s.length ∧ (st.2 = s ∨ st.2 = s ++ ".")) →
      ((∀ c ∈ (l.foldl (chunkStep k) st).1, c.length ≤ k + 1 ∨
          ∃ s ∈ sents, k < s.length ∧ (c = jsTrim s ∨ c = jsTrim (s ++ "."))) ∧
        ((l.foldl (chunkStep k) st).2.length ≤ k + 1 ∨
          ∃ s ∈ sents, k < s.length ∧
            ((l.foldl (chunkStep k) st).2 = s ∨
              (l.foldl (chunkStep k) st).2 = s ++ "."))) := by
  intro l
  induction l with
  | nil =>
    intro st _ h1 h2
    exact ⟨h1, h2⟩
  | cons s l ih =>
    intro st hl h1 h2
    rw [List.foldl_cons]
    have hs : s ∈ sents := hl s (List.mem_cons_self s l)
    refine ih _ (fun x hx => hl x (List.mem_cons_of_mem _ hx)) ?_ ?_
    · -- closed chunks of the new state
      intro c hc
      unfold chunkStep at hc
      split at hc
      · rcases List.mem_append.mp hc with hold | hnew
        · exact h1 c hold
        · have hceq : c = jsTrim st.2 := by simpa using hnew
          subst hceq
          rcases h2 with hlen | ⟨s', hs', hlen', hor⟩
          · exact Or.inl ((jsTrim_length_le _).trans hlen)
          · refine Or.inr ⟨s', hs', hlen', ?_⟩
            rcases hor with heq | heq
            · exact Or.inl (by rw [heq])
            · exact Or.inr (by rw [heq])
      · exact h1 c hc
    · -- the new running buffer
      unfold chunkStep
      split
      · -- the buffer was closed; the new buffer is the sentence itself
        by_cases hsl : s.length ≤ k + 1
        · exact Or.inl hsl
        · exact Or.inr ⟨s, hs, by omega, Or.inl rfl⟩
      · -- the sentence (plus period) was appended to the buffer
        rename_i hcond
        by_cases hz : st.2.length = 0
        · have hempty : st.2 = "" := string_eq_empty_of_length _ hz
          by_cases hsl : s.length + 1 ≤ k + 1
          · refine Or.inl ?_
            have hdot : (".").length = 1 := rfl
            simp [String.length_append, hz]
            omega
          · refine Or.inr ⟨s, hs, by omega, Or.inr ?_⟩
            rw [hempty]
            rfl
        · have hle : st.2.length + s.length ≤ k := by
            by_contra hgt
            exact hcond ⟨by omega, by omega⟩
          refine Or.inl ?_
          have hdot : (".").length = 1 := rfl
          simp [String.length_append]
          omega

/-- C4 (counterexample): with `maxChunkSize = 5` and three sentences of
lengths 2, 2 and 1 (none exceeding the bound), the first returned chunk is
`"ab.cd."` of length 6 > 5, and it is not the last chunk: the separator
periods the chunker appends are not counted by its overflow test, so a
non-final chunk can exceed `maxChunkSize` even when no single sentence
does. -/
theorem chunkText_size_counterexample :
    chunkText "ab.cd.e." 5 = ["ab.cd.", "e"] ∧
    ((chunkText "ab.cd.e." 5).dropLast.any fun c => decide (5 < c.length)) = true ∧
    ((sentencesOf "ab.cd.e.").all fun s => decide (s.length ≤ 5)) = true := by
  refine ⟨by decide, by decide, by decide⟩

/-- C4 (amended): every chunk except possibly the last has length at most
`maxChunkSize + 1` (the `+ 1` accounts for the appended period, which the
overflow test does not count), except when a single sentence alone exceeds
`maxChunkSize`, in which case that sentence forms its own chunk — trimmed,
possibly with one appended period. -/
theorem chunkText_size_bound (text : String) (k : Nat) :
    ∀ c ∈ (chunkText text k).dropLast,
      c.length ≤ k + 1 ∨
        ∃ s ∈ sentencesOf text, k < s.length ∧
          (c = jsTrim s ∨ c = jsTrim (s ++ ".")) := by
  intro c hc
  have hinv := chunk_fold_inv k (sentencesOf text) (sentencesOf text)
    ([], "") (fun x hx => hx) (by intro c hc; simp at hc) (Or.inl (by simp))
  have hc1 : c ∈ ((sentencesOf text).foldl (chunkStep k) ([], "")).1 := by
    have hck : chunkText text k =
        (if 0 < (jsTrim ((sentencesOf text).foldl (chunkStep k) ([], "")).2).length
          then ((sentencesOf text).foldl (chunkStep k) ([], "")).1 ++
            [jsTrim ((sentencesOf text).foldl (chunkStep k) ([], "")).2]
          else ((sentencesOf text).foldl (chunkStep k) ([], "")).1) := rfl
    rw [hck] at hc
    split at hc
    · rw [List.dropLast_concat] at hc
      exact hc
    · exact (List.dropLast_sublist _).subset hc
  exact hinv.1 c hc1

/-- Witness for the amended C4 at the counterexample input: the oversized
chunk `"ab.cd."` satisfies the amended bound `≤ maxChunkSize + 1`. -/
theorem chunkText_size_bound_witness :
    "ab.cd." ∈ (chunkText "ab.cd.e." 5).dropLast ∧
    ("ab.cd.".length ≤ 5 + 1 ∨
      ∃ s ∈ sentencesOf "ab.cd.e.", 5 < s.length ∧
        ("ab.cd." = jsTrim s ∨ "ab.cd." = jsTrim (s ++ "."))) :=
  ⟨by decide, chunkText_size_bound "ab.cd.e." 5 "ab.cd." (by decide)⟩

/-! ### Chunking completeness (C8 helpers) -/

theorem filter_charKeep_dropWhile (cs : List Char) :
    ((cs.dropWhile isWs).filter charKeep) = cs.filter charKeep := by
  induction cs with
  | nil => rfl
  | cons c cs ih =>
    rw [List.dropWhile_cons]
    by_cases h : isWs c
    · have hck : charKeep c = false := by simp [charKeep, h]
      simp [h, ih, List.filter_cons, hck]
    · simp [h]

theorem filter_charKeep_trimCs (cs : List Char) :
    ((trimCs cs).filter charKeep) = cs.filter charKeep := by
  unfold trimCs
  rw [List.filter_reverse, filter_charKeep_dropWhile, List.filter_reverse,
    List.reverse_reverse, filter_charKeep_dropWhile]

theorem splitRunsBy_ne_nil (p : Char → Bool) (cs : List Char) :
    splitRunsBy p cs ≠ [] := by
  induction cs with
  | nil => simp [splitRunsBy]
  | cons c rest ih =>
    cases rest with
    | nil => by_cases h : p c <;> simp [splitRunsBy, h]
    | cons d rest' =>
      rw [splitRunsBy]
      by_cases h : p c
      · by_cases hd : p d <;> simp [h, hd] <;> exact ih
      · rcases hm : splitRunsBy p (d :: rest') with _ | ⟨f, fs⟩
        · exact absurd hm ih
        · simp [h, hm]

theorem splitRunsBy_flatten (p : Char → Bool) (cs : List Char) :
    (splitRunsBy p cs).flatten = cs.filter fun c => !(p c) := by
  induction cs with
  | nil => rfl
  | cons c rest ih =>
    cases rest with
    | nil => by_cases h : p c <;> simp [splitRunsBy, h]
    | cons d rest' =>
      rw [splitRunsBy]
      by_cases h : p c
      · by_cases hd : p d <;> simp [h, hd, ih]
      · rcases hm : splitRunsBy p (d :: rest') with _ | ⟨f, fs⟩
        · exact absurd hm (splitRunsBy_ne_nil p _)
        · rw [hm] at ih
          simp [h, hm, ← ih]

theorem strip_join_data (L : List String) :
    (String.join L).data.filter charKeep =
      ((L.map fun s => s.data.filter charKeep).flatten) := by
  rw [String.data_join, List.filter_flatten, List.map_map]
  rfl

/-- Fragments dropped by the sentence filter are whitespace-only, hence
contribute no payload characters. -/
theorem strip_of_trim_empty (s : String) (h : ¬ 0 < (jsTrim s).length) :
    s.data.filter charKeep = [] := by
  have hz : (trimCs s.data).length = 0 := by
    have : (jsTrim s).length = (trimCs s.data).length := rfl
    omega
  have hnil : trimCs s.data = [] := List.length_eq_zero.mp hz
  rw [← filter_charKeep_trimCs, hnil]
  rfl

theorem flatten_map_filter_strip (q : String → Bool) :
    ∀ L : List String, (∀ s ∈ L, ¬ q s → s.data.filter charKeep = []) →
      (((L.filter q).map fun s => s.data.filter charKeep).flatten) =
        ((L.map fun s => s.data.filter charKeep).flatten) := by
  intro L
  induction L with
  | nil => simp
  | cons s L ih =>
    intro h
    have hL : ∀ x ∈ L, ¬ q x → x.data.filter charKeep = [] :=
      fun x hx => h x (List.mem_cons_of_mem _ hx)
    by_cases hq : q s
    · simp [List.filter_cons, hq, ih hL]
    · simp [List.filter_cons, hq, ih hL, h s (List.mem_cons_self _ _) hq]

/-- The payload of the concatenated sentences is the payload of the text. -/
theorem strip_sentences (text : String) :
    stripSep (String.join (sentencesOf text)) = stripSep text := by
  show String.mk ((String.join (sentencesOf text)).data.filter charKeep) =
    String.mk (text.data.filter charKeep)
  rw [strip_join_data]
  unfold sentencesOf
  rw [flatten_map_filter_strip _ _ fun s _ h => strip_of_trim_empty s (by simpa using h)]
  rw [List.map_map]
  have hcomp : ((fun s : String => s.data.filter charKeep) ∘ fun cs => String.mk cs) =
      fun cs : List Char => cs.filter charKeep := rfl
  rw [hcomp]
  have : ((splitTermRaw text.data).map fun cs => cs.filter charKeep).flatten =
      ((splitTermRaw text.data).flatten).filter charKeep := by
    rw [List.filter_flatten]
  rw [this]
  show String.mk (((splitRunsBy isTerm text.data).flatten).filter charKeep) = _
  rw [splitRunsBy_flatten, List.filter_filter]
  congr 1
  apply List.filter_congr
  intro c _
  by_cases h : isTerm c <;> simp [charKeep, h]

/-- The payload invariant of the accumulation loop: closed chunks plus the
running buffer always hold exactly the payload of the processed
sentences. -/
theorem chunk_fold_strip (k : Nat) :
    ∀ (l : List String) (st : List String × String),
      ((String.join (l.foldl (chunkStep k) st).1).data.filter charKeep) ++
        (((l.foldl (chunkStep k) st).2).data.filter charKeep) =
      ((String.join st.1).data.filter charKeep) ++
        ((st.2).data.filter charKeep) ++
        ((l.map fun s => s.data.filter charKeep).flatten) := by
  intro l
  induction l with
  | nil =>
    intro st
    simp
  | cons s l ih =>
    intro st
    rw [List.foldl_cons, ih (chunkStep k st s)]
    have hstep :
        ((String.join (chunkStep k st s).1).data.filter charKeep) ++
          (((chunkStep k st s).2).data.filter charKeep) =
        ((String.join st.1).data.filter charKeep) ++
          ((st.2).data.filter charKeep) ++ (s.data.filter charKeep) := by
      unfold chunkStep
      split
      · rw [strip_join_data, strip_join_data, List.map_append, List.flatten_append]
        have htrim : (jsTrim st.2).data.filter charKeep = st.2.data.filter charKeep := by
          show (trimCs st.2.data).filter charKeep = _
          rw [filter_charKeep_trimCs]
        simp [htrim]
      · have hdot : (".").data.filter charKeep = [] := by decide
        have happ : (st.2 ++ s ++ ".").data = st.2.data ++ s.data ++ (".").data := by
          simp
        simp only [happ, List.filter_append, hdot, List.append_nil]
        simp [List.append_assoc]
    calc ((String.join (chunkStep k st s).1).data.filter charKeep) ++
          (((chunkStep k st s).2).data.filter charKeep) ++
          ((l.map fun s => s.data.filter charKeep).flatten)
        = ((String.join st.1).data.filter charKeep) ++
            ((st.2).data.filter charKeep) ++ (s.data.filter charKeep) ++
            ((l.map fun s => s.data.filter charKeep).flatten) := by rw [hstep]
      _ = _ := by simp [List.append_assoc]

/-- C8 (counterexample): re-splitting the chunks on sentence terminators
does not reproduce the original sentence sequence.  For
`chunkText "aa.bb.cc." 4` the second chunk is `"bbcc."`: after a chunk
boundary the loop seeds the new buffer with the bare sentence and appends
the next one without a separator, merging `"bb"` and `"cc"` into the single
sentence `"bbcc"`. -/
theorem chunkText_sentences_counterexample :
    ((chunkText "aa.bb.cc." 4).map sentencesOf).flatten = ["aa", "bbcc"] ∧
    sentencesOf "aa.bb.cc." = ["aa", "bb", "cc"] := by
  refine ⟨by decide, by decide⟩

/-- C8 (amended): chunking is lossless at the level of payload characters:
stripping sentence terminators and whitespace, the concatenation of the
chunks equals both the concatenation of the sentences and the input text —
no content is dropped, duplicated or reordered.  The sentence *boundaries*
themselves are not always recoverable from the chunks, because the first
two sentences of a post-boundary chunk are concatenated without a
separator. -/
theorem chunkText_content_complete (text : String) (k : Nat) :
    stripSep (String.join (chunkText text k)) =
      stripSep (String.join (sentencesOf text)) ∧
    stripSep (String.join (sentencesOf text)) = stripSep text := by
  refine ⟨?_, strip_sentences text⟩
  rw [strip_sentences text]
  show String.mk ((String.join (chunkText text k)).data.filter charKeep) =
    String.mk (text.data.filter charKeep)
  congr 1
  have hdata : (String.join (sentencesOf text)).data.filter charKeep =
      text.data.filter charKeep :=
    congrArg String.data (strip_sentences text)
  have hinv' : (String.join
        ((sentencesOf text).foldl (chunkStep k) ([], "")).1).data.filter charKeep ++
      (((sentencesOf text).foldl (chunkStep k) ([], "")).2).data.filter charKeep =
      text.data.filter charKeep := by
    rw [chunk_fold_strip k (sentencesOf text) ([], "")]
    rw [show ((String.join (([], ""):List String × String).1).data.filter charKeep) =
      ([] : List Char) from rfl]
    rw [show (((([], ""):List String × String).2).data.filter charKeep) =
      ([] : List Char) from rfl]
    rw [List.nil_append, List.nil_append, ← strip_join_data, hdata]
  have hck : chunkText text k =
      (if 0 < (jsTrim ((sentencesOf text).foldl (chunkStep k) ([], "")).2).length
        then ((sentencesOf text).foldl (chunkStep k) ([], "")).1 ++
          [jsTrim ((sentencesOf text).foldl (chunkStep k) ([], "")).2]
        else ((sentencesOf text).foldl (chunkStep k) ([], "")).1) := rfl
  rw [hck]
  split
  · rw [strip_join_data, List.map_append, List.flatten_append, ← strip_join_data]
    have htrim : (jsTrim ((sentencesOf text).foldl (chunkStep k) ([], "")).2).data.filter
        charKeep = (((sentencesOf text).foldl (chunkStep k) ([], "")).2).data.filter
          charKeep := by
      show (trimCs _).filter charKeep = _
      rw [filter_charKeep_trimCs]
    simp only [List.map_cons, List.map_nil, List.flatten_cons, List.flatten_nil,
      List.append_nil]
    rw [htrim]
    exact hinv'
  · rename_i hnf
    have hz : (((sentencesOf text).foldl (chunkStep k) ([], "")).2).data.filter
        charKeep = [] :=
      strip_of_trim_empty _ hnf
    rw [hz, List.append_nil] at hinv'
    exact hinv'

/-! ### Upsert batching (C9 helpers) -/

theorem sliceBatchesAux_flatten {α : Type} (size : Nat) :
    ∀ (l cur : List α) (k : Nat),
      (sliceBatchesAux size l cur k).flatten = cur.reverse ++ l := by
  intro l
  induction l with
  | nil =>
    intro cur k
    rw [sliceBatchesAux]
    by_cases h : cur.isEmpty
    · rw [if_pos h]
      rw [List.isEmpty_iff] at h
      simp [h]
    · rw [if_neg h]
      simp
  | cons a l ih =>
    intro cur k
    rw [sliceBatchesAux]
    by_cases h : k ≤ 1
    · rw [if_pos h]
      simp [ih]
    · rw [if_neg h]
      simp [ih]

/-- The batches cover the input exactly, in order. -/
theorem sliceBatches_flatten {α : Type} (size : Nat) (hs : size ≠ 0)
    (l : List α) : (sliceBatches size l).flatten = l := by
  unfold sliceBatches
  rw [if_neg hs, sliceBatchesAux_flatten]
  simp

theorem sliceBatchesAux_batch_size {α : Type} (size : Nat) :
    ∀ (l cur : List α) (k : Nat), k + cur.length = size → 1 ≤ k →
      ∀ b ∈ sliceBatchesAux size l cur k, 0 < b.length ∧ b.length ≤ size := by
  intro l
  induction l with
  | nil =>
    intro cur k hk hk1 b hb
    rw [sliceBatchesAux] at hb
    by_cases h : cur.isEmpty
    · rw [if_pos h] at hb
      simp at hb
    · rw [if_neg h] at hb
      have hb' : b = cur.reverse := by simpa using hb
      subst hb'
      have : cur ≠ [] := by
        intro hnil
        rw [hnil] at h
        simp at h
      have : 0 < cur.length := List.length_pos.mpr this
      constructor
      · simpa using this
      · simp
        omega
  | cons a l ih =>
    intro cur k hk hk1 b hb
    rw [sliceBatchesAux] at hb
    by_cases h : k ≤ 1
    · rw [if_pos h] at hb
      rcases List.mem_cons.mp hb with hb' | hb'
      · subst hb'
        constructor
        · simp
        · simp
          omega
      · exact ih [] size (by simp) (by omega) b hb'
    · rw [if_neg h] at hb
      exact ih (a :: cur) (k - 1) (by simp; omega) (by omega) b hb

/-- Every batch is non-empty and within the batch size. -/
theorem sliceBatches_batch_size {α : Type} (size : Nat) (hs : size ≠ 0)
    (l : List α) : ∀ b ∈ sliceBatches size l, 0 < b.length ∧ b.length ≤ size := by
  unfold sliceBatches
  rw [if_neg hs]
  exact sliceBatchesAux_batch_size size l [] size (by simp) (by omega)

/-- C9 (confirmed): with configuration and index available, `storeDocument`
splits the prepared vectors into consecutive batches of (at most) 10, every
batch is attempted regardless of the per-batch success oracle — the trace
of attempted batches is exactly the batch decomposition, for every oracle —
and whenever there is at least one chunk the call succeeds even if
individual batches failed. -/
theorem storeDocument_batches_all_attempted {R : Type} (O : NumOps R)
    (env : PineEnv) (fileName fileType content : String)
    (userId : Option String) (hkey : env.apiKey = true)
    (hidx : env.getIndexOk = true) :
    ((storeDocument O env fileName fileType content userId).2).map Prod.fst =
      sliceBatches 10 (preparedVectors O env fileName fileType content userId) ∧
    (sliceBatches 10 (preparedVectors O env fileName fileType content userId)).flatten =
      preparedVectors O env fileName fileType content userId ∧
    (∀ b ∈ sliceBatches 10 (preparedVectors O env fileName fileType content userId),
      0 < b.length ∧ b.length ≤ 10) ∧
    (chunkText (cleanContent content) 800 ≠ [] →
      (storeDocument O env fileName fileType content userId).1 = Except.ok ()) := by
  have hvlen : (preparedVectors O env fileName fileType content userId).length =
      (chunkText (cleanContent content) 800).length := by
    unfold preparedVectors
    simp
  have hmain : (chunkText (cleanContent content) 800).length ≠ 0 →
      storeDocument O env fileName fileType content userId =
        (Except.ok (), (sliceBatches 10
          (preparedVectors O env fileName fileType content userId)).enum.map
            fun p => (p.2, env.upsertOk p.1)) := by
    intro hch
    simp only [storeDocument]
    rw [if_neg (by simp [hkey])]
    rw [if_neg (by simp [hidx])]
    rw [if_neg hch]
    rw [if_neg (show ¬ (preparedVectors O env fileName fileType content
      userId).length = 0 from by rw [hvlen]; exact hch)]
  refine ⟨?_, sliceBatches_flatten 10 (by omega) _,
    sliceBatches_batch_size 10 (by omega) _, ?_⟩
  · by_cases hchunks : (chunkText (cleanContent content) 800).length = 0
    · have hnil : chunkText (cleanContent content) 800 = [] :=
        List.length_eq_zero.mp hchunks
      have hvec : preparedVectors O env fileName fileType content userId = [] := by
        unfold preparedVectors
        rw [hnil]
        rfl
      have hsd : storeDocument O env fileName fileType content userId =
          (Except.error "No content chunks to process", []) := by
        simp only [storeDocument]
        rw [if_neg (by simp [hkey])]
        rw [if_neg (by simp [hidx])]
        rw [if_pos hchunks]
      rw [hsd, hvec]
      rfl
    · rw [hmain hchunks]
      rw [List.map_map]
      have hcomp : (Prod.fst ∘ fun p : Nat × List (DocumentVector R) =>
          (p.2, env.upsertOk p.1)) = Prod.snd := rfl
      rw [hcomp, List.enum_map_snd]
  · intro hne
    have hch : (chunkText (cleanContent content) 800).length ≠ 0 := by
      intro h0
      exact hne (List.length_eq_zero.mp h0)
    rw [hmain hch]

/-- Witness for C9: a concrete store in a healthy environment succeeds and
its attempted-batch trace is the batch decomposition of the prepared
vectors. -/
theorem storeDocument_batches_all_attempted_witness :
    (storeDocument jsOpsRef envAllOk "report.txt" "text/plain"
      "hello world. second piece." none).1 = Except.ok () ∧
    ((storeDocument jsOpsRef envAllOk "report.txt" "text/plain"
      "hello world. second piece." none).2).map Prod.fst =
      sliceBatches 10 (preparedVectors jsOpsRef envAllOk "report.txt"
        "text/plain" "hello world. second piece." none) :=
  ⟨(storeDocument_batches_all_attempted jsOpsRef envAllOk "report.txt"
      "text/plain" "hello world. second piece." none rfl rfl).2.2.2 (by decide),
    (storeDocument_batches_all_attempted jsOpsRef envAllOk "report.txt"
      "text/plain" "hello world. second piece." none rfl rfl).1⟩

/-! ### Fallback score synthesis (C6 helpers) -/

/-- Any reshaping of the form `slice.map((doc, i) => { score:
max(0.9 - 0.1·i, 0.1), … })` yields the fixed descending score sequence,
sortedness and the `[0.1, 0.9]` bounds. -/
theorem fallback_scores_generic {α β : Type} (l : List α) (mk : Nat × α → β)
    (sc : β → ℚ)
    (h : ∀ p : Nat × α, sc (mk p) = max (9 / 10 - (p.1 : ℚ) * (1 / 10)) (1 / 10)) :
    ((l.enum.map mk).map sc = (List.range l.length).map
      fun i : Nat => max (9 / 10 - (i : ℚ) * (1 / 10)) (1 / 10)) ∧
    (l.enum.map mk).Pairwise (fun a b => sc b ≤ sc a) ∧
    ∀ r ∈ l.enum.map mk, 1 / 10 ≤ sc r ∧ sc r ≤ 9 / 10 := by
  have hg : ∀ i : Nat, 1 / 10 ≤ max (9 / 10 - (i : ℚ) * (1 / 10)) (1 / 10) ∧
      max (9 / 10 - (i : ℚ) * (1 / 10)) (1 / 10) ≤ 9 / 10 := by
    intro i
    constructor
    · exact le_max_right _ _
    · refine max_le ?_ (by norm_num)
      have : (0 : ℚ) ≤ (i : ℚ) * (1 / 10) := by positivity
      linarith
  have hmono : ∀ i j : Nat, i < j →
      max (9 / 10 - (j : ℚ) * (1 / 10)) (1 / 10) ≤
        max (9 / 10 - (i : ℚ) * (1 / 10)) (1 / 10) := by
    intro i j hij
    refine max_le_max ?_ (le_refl _)
    have hij' : (i : ℚ) ≤ (j : ℚ) := by exact_mod_cast hij.le
    have : (i : ℚ) * (1 / 10) ≤ (j : ℚ) * (1 / 10) := by
      apply mul_le_mul_of_nonneg_right hij'
      norm_num
    linarith
  have hscores : (l.enum.map mk).map sc = (List.range l.length).map
      fun i : Nat => max (9 / 10 - (i : ℚ) * (1 / 10)) (1 / 10) := by
    rw [List.map_map]
    have h1 : (sc ∘ mk) = fun p : Nat × α =>
        max (9 / 10 - (p.1 : ℚ) * (1 / 10)) (1 / 10) := funext h
    rw [h1]
    have h2 : (fun p : Nat × α => max (9 / 10 - (p.1 : ℚ) * (1 / 10)) (1 / 10)) =
        (fun i : Nat => max (9 / 10 - (i : ℚ) * (1 / 10)) (1 / 10)) ∘ Prod.fst := rfl
    rw [h2, ← List.map_map, List.enum_map_fst]
  refine ⟨hscores, ?_, ?_⟩
  · have hp : ((l.enum.map mk).map sc).Pairwise fun a b : ℚ => b ≤ a := by
      rw [hscores, List.pairwise_map]
      exact (List.pairwise_lt_range _).imp fun hij => hmono _ _ hij
    exact (List.pairwise_map.mp hp).imp fun hab => hab
  · intro r hr
    rcases List.mem_map.mp hr with ⟨p, _, rfl⟩
    rw [h p]
    exact hg p.1

/-- C6 (confirmed): for every fallback search served by the local store —
both the chat flow (`useChat.ts`) and the document manager
(`DocumentManager.tsx`) — the `i`-th result carries the synthesized score
`max(0.9 - 0.1·i, 0.1)`, the score sequence is non-increasing, and every
score lies in `[0.1, 0.9]`. -/
theorem localFallbackScores (docs : List LocalDocument) (query : String)
    (u : Option String) :
    ((chatFallbackResults (searchDocumentsLocal docs query u)).map
        ChatSearchResult.score =
      (List.range ((searchDocumentsLocal docs query u).take 3).length).map
        fun i : Nat => max (9 / 10 - (i : ℚ) * (1 / 10)) (1 / 10)) ∧
    (chatFallbackResults (searchDocumentsLocal docs query u)).Pairwise
      (fun a b => b.score ≤ a.score) ∧
    (∀ r ∈ chatFallbackResults (searchDocumentsLocal docs query u),
      1 / 10 ≤ r.score ∧ r.score ≤ 9 / 10) ∧
    ((managerFallbackResults (searchDocumentsLocal docs query u)).map
        ManagerSearchResult.score =
      (List.range ((searchDocumentsLocal docs query u).take 10).length).map
        fun i : Nat => max (9 / 10 - (i : ℚ) * (1 / 10)) (1 / 10)) ∧
    (managerFallbackResults (searchDocumentsLocal docs query u)).Pairwise
      (fun a b => b.score ≤ a.score) ∧
    ∀ r ∈ managerFallbackResults (searchDocumentsLocal docs query u),
      1 / 10 ≤ r.score ∧ r.score ≤ 9 / 10 := by
  have hchat := fallback_scores_generic ((searchDocumentsLocal docs query u).take 3)
    (fun p => ({ score := max (9 / 10 - (p.1 : ℚ) * (1 / 10)) (1 / 10)
                 fileName := p.2.fileName
                 fileType := p.2.fileType
                 content := p.2.content } : ChatSearchResult))
    ChatSearchResult.score (fun p => rfl)
  have hmgr := fallback_scores_generic ((searchDocumentsLocal docs query u).take 10)
    (fun p => ({ score := max (9 / 10 - (p.1 : ℚ) * (1 / 10)) (1 / 10)
                 fileName := p.2.fileName
                 fileType := p.2.fileType
                 content := String.mk (p.2.content.data.take 200) ++
                   (if p.2.content.length > 200 then "..." else "")
                 timestamp := p.2.timestamp } : ManagerSearchResult))
    ManagerSearchResult.score (fun p => rfl)
  exact ⟨hchat.1, hchat.2.1, hchat.2.2, hmgr.1, hmgr.2.1, hmgr.2.2⟩

/-- Witness for C6: the single local match for query `"foo"` gets score
0.9, and the bounds hold on the concrete result list. -/
theorem localFallbackScores_witness :
    ((chatFallbackResults (searchDocumentsLocal [docFoo, docBar] "foo" none)).map
      ChatSearchResult.score = [9 / 10]) ∧
    ∀ r ∈ chatFallbackResults (searchDocumentsLocal [docFoo, docBar] "foo" none),
      1 / 10 ≤ r.score ∧ r.score ≤ 9 / 10 :=
  ⟨by
    have h := (localFallbackScores [docFoo, docBar] "foo" none).1
    rw [h]
    have hlen : (List.take 3 (searchDocumentsLocal [docFoo, docBar] "foo"
      none)).length = 1 := by decide
    rw [hlen, show List.range 1 = [0] from rfl]
    norm_num,
   (localFallbackScores [docFoo, docBar] "foo" none).2.2.1⟩

/-! ### Embedding length and determinism (C7 helpers) -/

theorem foldl_length_inv {R β : Type} (step : List R → β → List R)
    (h : ∀ v b, (step v b).length = v.length) :
    ∀ (l : List β) (v : List R), (l.foldl step v).length = v.length := by
  intro l
  induction l with
  | nil => intro v; rfl
  | cons b l ih =>
    intro v
    rw [List.foldl_cons, ih, h]

theorem bump_length {R : Type} (O : NumOps R) (v : List R) (i : Nat) (x : R) :
    (bump O v i x).length = v.length := by
  simp [bump]

theorem tfContrib_length {R : Type} (O : NumOps R) (words uniq : List String)
    (wi : Nat) (w : String) (v : List R) :
    (tfContrib O words uniq wi w v).length = v.length := by
  unfold tfContrib
  exact foldl_length_inv _ (fun v hf => by simp [bump]) _ _

theorem featStage_length {R : Type} (O : NumOps R) (text : String)
    (words : List String) (v : List R) :
    (featStage O text words v).length = v.length := by
  unfold featStage
  simp only [bump_length]

theorem posStage_length {R : Type} (O : NumOps R) (words : List String)
    (v : List R) : (posStage O words v).length = v.length := by
  unfold posStage
  generalize (words.take 50).enum = l
  induction l generalizing v with
  | nil => rfl
  | cons p l ih => rw [List.foldl_cons, ih, bump_length]

theorem tfStage_length {R : Type} (O : NumOps R) (words uniq : List String)
    (v : List R) : (tfStage O words uniq v).length = v.length := by
  unfold tfStage
  generalize uniq.enum = l
  induction l generalizing v with
  | nil => rfl
  | cons p l ih => rw [List.foldl_cons, ih, tfContrib_length]

theorem preEmbedData_length {R : Type} (O : NumOps R) (text : String)
    (words : List String) : (preEmbedData O text words).length = 384 := by
  unfold preEmbedData
  rw [featStage_length, posStage_length, tfStage_length, List.length_replicate]

/-- C7 (confirmed): `generateEmbedding` is a pure function of its input
text — the `Math.random()` fallback stream is consulted only in the
`catch` branch, which is unreachable because every operation of the `try`
body is total — so two evaluations agree bit for bit, in any numeric
model, and the result always has exactly 384 components. -/
theorem generateEmbedding_deterministic {R : Type} (O : NumOps R)
    (rand₁ rand₂ : Nat → ℚ) (s : String) :
    generateEmbedding O rand₁ s = generateEmbedding O rand₂ s ∧
    (generateEmbedding O rand₁ s).length = 384 := by
  refine ⟨rfl, ?_⟩
  show (generateEmbeddingCore O s).length = 384
  simp only [generateEmbeddingCore]
  split
  · rw [List.length_map]
    exact preEmbedData_length O s (wordsOf s)
  · exact preEmbedData_length O s (wordsOf s)

/-! ### Embedding normalization (C3 helpers) -/

theorem foldl_add_sq (v : List ℝ) :
    ∀ a : ℝ, v.foldl (fun s x => s + x * x) a = a + (v.map fun x => x * x).sum := by
  induction v with
  | nil => intro a; simp
  | cons x v ih =>
    intro a
    rw [List.foldl_cons, ih]
    simp [List.map_cons, List.sum_cons]
    ring

/-- In the exact-real model, `sumSq` is the sum of the squares. -/
theorem sumSq_real (v : List ℝ) : sumSq realOps v = (v.map fun x => x * x).sum := by
  show v.foldl (fun s x => s + x * x) (((0:ℚ):ℝ)) = _
  rw [foldl_add_sq]
  norm_num

theorem sum_map_div (l : List ℝ) (c : ℝ) :
    (l.map fun x => x / c).sum = l.sum / c := by
  induction l with
  | nil => simp
  | cons x l ih => simp [ih, add_div]

theorem realOps_gtZero_iff (x : ℝ) : realOps.gtZero x = true ↔ 0 < x := by
  show decide (0 < x) = true ↔ _
  exact decide_eq_true_iff

set_option maxRecDepth 10000 in
/-- When the filtered word list is empty (no token longer than two
characters), every loop of the accumulation is skipped and only the
document-level features remain: the average-word-length slot receives the
`0 / 0` division. -/
theorem preEmbedData_nil {R : Type} (O : NumOps R) (text : String) :
    preEmbedData O text [] =
      bump O (bump O (bump O (bump O (List.replicate 384 (O.ofRat 0)) 0
        (O.mul (O.div (O.ofRat ((0:Nat):ℚ)) (O.ofRat ((0:Nat):ℚ)))
          (O.ofRat (1 / 100)))) 1
        (O.mul (O.ofRat 0) (O.ofRat (1 / 100)))) 2
        (O.mul (O.ofRat ((rawSentCount text : Nat):ℚ)) (O.ofRat (1 / 1000)))) 3
        (O.mul (O.ofRat (((0:Nat)):ℚ)) (O.ofRat (1 / 10000))) := rfl

set_option maxRecDepth 10000 in
/-- C3 (counterexample): `"!"` is a non-empty string, yet component 0 of
its embedding is NaN in the float model: the input has no token longer
than two characters, so `avgWordLength` is the division `0 / 0`, which
poisons dimension 0; the computed norm is NaN, the `norm > 0` guard is
false, and the unnormalized NaN component is returned.  The vector is
neither finite in every component nor of Euclidean norm ≈ 1. -/
theorem generateEmbedding_nan_counterexample :
    "!" ≠ "" ∧
    (generateEmbedding jsOpsRef randZero "!").get? 0 = some none := by
  refine ⟨by decide, by decide⟩

/-- C3 (amended): in exact real arithmetic, whenever the pre-normalization
accumulator has positive sum of squares, the returned vector has sum of
squares exactly 1 (Euclidean norm exactly 1, hence within any epsilon).
The original "every non-empty input" quantification fails in the float
model for inputs with no token longer than two characters. -/
theorem generateEmbedding_norm_one (s : String)
    (h : 0 < sumSq realOps (preEmbedData realOps s (wordsOf s))) :
    sumSq realOps (generateEmbeddingCore realOps s) = 1 := by
  have hn : (0:ℝ) <
      Real.sqrt (sumSq realOps (preEmbedData realOps s (wordsOf s))) :=
    Real.sqrt_pos.mpr h
  have hcond : realOps.gtZero (realOps.sqrt (sumSq realOps
      (preEmbedData realOps s (wordsOf s)))) = true :=
    (realOps_gtZero_iff _).mpr hn
  have hcore : generateEmbeddingCore realOps s =
      (preEmbedData realOps s (wordsOf s)).map
        (fun x => x / Real.sqrt (sumSq realOps
          (preEmbedData realOps s (wordsOf s)))) := by
    simp only [generateEmbeddingCore]
    rw [if_pos hcond]
    rfl
  rw [hcore, sumSq_real, List.map_map]
  have h1 : ((fun x : ℝ => x * x) ∘ fun x => x / Real.sqrt (sumSq realOps
      (preEmbedData realOps s (wordsOf s)))) =
      (fun y : ℝ => y / (Real.sqrt (sumSq realOps (preEmbedData realOps s
        (wordsOf s))) * Real.sqrt (sumSq realOps (preEmbedData realOps s
          (wordsOf s))))) ∘ (fun x : ℝ => x * x) := by
    funext x
    show (x / _) * (x / _) = (x * x) / _
    rw [div_mul_div_comm]
  rw [h1, ← List.map_map, sum_map_div, ← sumSq_real,
    Real.mul_self_sqrt (le_of_lt h)]
  exact div_self (ne_of_gt h)

set_option maxRecDepth 10000 in
/-- Witness for the amended C3 at the input `"!"`: the accumulator is
nonzero (dimension 2 holds `sentenceCount · 0.001 = 0.002`), so the
idealized embedding has squared norm exactly 1. -/
theorem generateEmbedding_norm_one_witness :
    0 < sumSq realOps (preEmbedData realOps "!" (wordsOf "!")) ∧
    sumSq realOps (generateEmbeddingCore realOps "!") = 1 := by
  have hw : wordsOf "!" = [] := by decide
  have hs : rawSentCount "!" = 2 := by decide
  have hF : preEmbedData realOps "!" (wordsOf "!") =
      (((0:ℚ):ℝ) + ((((0:Nat):ℚ):ℝ) / (((0:Nat):ℚ):ℝ)) * (((1:ℚ) / 100:ℚ):ℝ)) ::
      (((0:ℚ):ℝ) + ((0:ℚ):ℝ) * (((1:ℚ) / 100:ℚ):ℝ)) ::
      (((0:ℚ):ℝ) + ((((2:Nat):ℚ)):ℝ) * (((1:ℚ) / 1000:ℚ):ℝ)) ::
      (((0:ℚ):ℝ) + ((((0:Nat):ℚ)):ℝ) * (((1:ℚ) / 10000:ℚ):ℝ)) ::
      List.replicate 380 ((0:ℚ):ℝ) := by
    rw [hw, preEmbedData_nil, hs]
    rfl
  have hpos : 0 < sumSq realOps (preEmbedData realOps "!" (wordsOf "!")) := by
    rw [sumSq_real, hF]
    simp only [List.map_cons, List.sum_cons, List.map_replicate,
      List.sum_replicate]
    push_cast
    norm_num
  exact ⟨hpos, generateEmbedding_norm_one "!" hpos⟩

end Pulse
